import Mathlib

/-!
Shallow embedding of `src/src/position.rs` (alignmentrs position module).

The Rust module defines three value types — `Block`, `LinearSpace`,
`CoordSpace` — plus the codec functions `blocks_to_arrays` and
`arrays_to_blocks`.  Machine integers (`i32`) are modelled as `Int`
(nothing in the verified operations overflows), `usize` casts of an
`i32` are made explicit in `usizeCast`, fallible operations return
`Except String`, and a Rust `Vec` index panic is modelled as the
distinguished error value `"panic: index out of bounds"`.  A `&mut self`
method becomes a function returning `Except String Unit × State`; a
`&self` method is a pure function of the state.
-/

deriving instance DecidableEq for Except

/-- The half-open integer range `start..stop` of Rust, as a list. -/
def intRange (a b : Int) : List Int :=
  (List.range (b - a).toNat).map (fun (k : Nat) => a + (k : Int))

/-- `Vec::iter().max()` — `none` on an empty vector. -/
def listMax : List Int → Option Int
  | [] => none
  | x :: xs => some (xs.foldl max x)

/-- `i as usize` applied to an `i32` value: non-negative values are kept,
negative values wrap modulo `2^64`. -/
def usizeCast (i : Int) : Nat :=
  if 0 ≤ i then i.toNat else ((2 : Int) ^ 64 + i).toNat

/-- `positions.sort_unstable(); positions.reverse();` — a descending sort.
The keys are plain integers, so unstable vs. stable sorting is
indistinguishable; an insertion sort realizes the same function. -/
def insertDesc (x : Int) : List Int → List Int
  | [] => [x]
  | y :: ys => if x ≥ y then x :: y :: ys else y :: insertDesc x ys

/-- Descending sort of the requested positions (see `insertDesc`). -/
def sortDesc : List Int → List Int
  | [] => []
  | x :: xs => insertDesc x (sortDesc xs)

/-- Char-level prefix test on strings (used to classify error messages). -/
def strHasOORPrefix (m : String) : Bool :=
  ("index out of range").data.isPrefixOf m.data

/-- Does an operation result carry the index-out-of-range failure? -/
def isOOR {α : Type} : Except String α → Bool
  | Except.error m => strHasOORPrefix m
  | Except.ok _ => false

/-- `Block { id, start, stop }` from the Rust source. -/
structure Block where
  id : String
  start : Int
  stop : Int
deriving DecidableEq

/-- `Block::_to_array`: `(self.start..self.stop).collect()`. -/
def Block.to_array (b : Block) : List Int := intRange b.start b.stop

/-- `LinearSpace { coords: Vec<(i32, i32, String)> }`. -/
structure LinearSpace where
  coords : List (Int × Int × String)
deriving DecidableEq

namespace LinearSpace

/-- `LinearSpace::_len`: sum of `stop - start` over all blocks. -/
def len (s : LinearSpace) : Int :=
  s.coords.foldl (fun acc c => acc + (c.2.1 - c.1)) 0

/-- The `rel_blocks` vector of `_remove`: running cumulative spans
`[start_offset - length, start_offset]` per block. -/
def relBlocksGo (off : Int) : List (Int × Int × String) → List (Int × Int)
  | [] => []
  | c :: rest => (off, off + (c.2.1 - c.1)) :: relBlocksGo (off + (c.2.1 - c.1)) rest

/-- `rel_blocks` built from the pre-mutation coords (offset starts at 0). -/
def relBlocksOf (coords : List (Int × Int × String)) : List (Int × Int) :=
  relBlocksGo 0 coords

/-- The inner rescan of `_remove`: `for i in (0..length).rev()` with the
three split/shrink/delete cases.  `relBlocks[i]` and `coords[i]` are both
read before the case tests, exactly as in the source; an out-of-bounds
read is the modelled panic.  The argument counts how many indices remain
to scan (`k+1` means index `k` is inspected next). -/
def scanStep (relBlocks : List (Int × Int)) (relPos : Int)
    (coords : List (Int × Int × String)) : Nat → Except String (List (Int × Int × String) × Nat)
  | 0 => Except.ok (coords, 0)
  | k + 1 =>
    match relBlocks.get? k, coords.get? k with
    | some rb, some c =>
      if relPos > rb.1 ∧ relPos < rb.2 - 1 then
        Except.ok
          (List.insertIdx (k + 1) (c.1 + (relPos - rb.1) + 1, c.2.1, c.2.2)
            (coords.set k (c.1, c.1 + (relPos - rb.1), c.2.2)), 1)
      else if relPos = rb.1 then
        if c.1 + 1 = c.2.1 then Except.ok (coords.eraseIdx k, 0)
        else Except.ok (coords.set k (c.1 + 1, c.2.1, c.2.2), 1)
      else if relPos = rb.2 - 1 then
        Except.ok (coords.set k (c.1, c.2.1 - 1, c.2.2), 0)
      else scanStep relBlocks relPos coords k
    | _, _ => Except.error ("panic: index out of bounds")

/-- The outer loop of `_remove` over the descending positions; `offset`
accumulates as in the source and shrinks the rescan range
`rel_blocks.len() - offset`. -/
def removeLoop (relBlocks : List (Int × Int)) :
    List Int → List (Int × Int × String) → Nat → Except String (List (Int × Int × String))
  | [], coords, _ => Except.ok coords
  | p :: rest, coords, offset =>
    match scanStep relBlocks p coords (relBlocks.length - offset) with
    | Except.error e => Except.error e
    | Except.ok (coords2, d) => removeLoop relBlocks rest coords2 (offset + d)

/-- `LinearSpace::_remove` (and the `remove` wrapper): bounds check on the
maximum requested position, then the descending per-position rescan. -/
def remove (s : LinearSpace) (positions : List Int) : Except String Unit × LinearSpace :=
  match listMax positions with
  | none => (Except.ok (), s)
  | some mx =>
    if mx ≥ s.len then (Except.error ("index out of range"), s)
    else
      match removeLoop (relBlocksOf s.coords) (sortDesc positions) s.coords 0 with
      | Except.error e => (Except.error e, s)
      | Except.ok coords2 => (Except.ok (), ⟨coords2⟩)

/-- `(0..self._len()).filter(|x| !positions.contains(x))` of `_retain`. -/
def invRel (s : LinearSpace) (positions : List Int) : List Int :=
  (intRange 0 s.len).filter (fun x => !(positions.contains x))

/-- `LinearSpace::_retain`: bounds check, then delegate to `remove` on the
complement of the requested positions. -/
def retain (s : LinearSpace) (positions : List Int) : Except String Unit × LinearSpace :=
  match listMax positions with
  | none => (Except.ok (), s)
  | some mx =>
    if mx ≥ s.len then (Except.error ("index out of range"), s)
    else s.remove (s.invRel positions)

/-- `LinearSpace::_to_blocks`: one `Block` per stored triple. -/
def to_blocks (s : LinearSpace) : List Block :=
  s.coords.map (fun c => ⟨c.2.2, c.1, c.2.1⟩)

/-- `LinearSpace::_to_compressed_str`: `id=length` per block, joined by `;`. -/
def to_compressed_str (s : LinearSpace) : String :=
  String.intercalate (";") (s.coords.map (fun c => c.2.2 ++ "=" ++ toString (c.2.1 - c.1)))

/-- `LinearSpace::_to_extended_str`: `id=start:stop` per block, joined by `;`. -/
def to_extended_str (s : LinearSpace) : String :=
  String.intercalate (";")
    (s.coords.map (fun c => c.2.2 ++ "=" ++ toString c.1 ++ ":" ++ toString c.2.1))

end LinearSpace

/-- `CoordSpace { coords: Vec<i32> }`. -/
structure CoordSpace where
  coords : List Int
deriving DecidableEq

namespace CoordSpace

/-- `CoordSpace::len_all`: total entry count. -/
def len_all (s : CoordSpace) : Int := s.coords.length

/-- `CoordSpace::len_seq`: count of entries strictly greater than 0. -/
def len_seq (s : CoordSpace) : Int :=
  ((s.coords.filter (fun x => decide (x > 0))).length : Int)

/-- `CoordSpace::len_gap`: count of entries strictly less than 0. -/
def len_gap (s : CoordSpace) : Int :=
  ((s.coords.filter (fun x => decide (x < 0))).length : Int)

/-- The push loop of `extract`: `new_coords.push(self.coords[*i as usize])`,
with an out-of-bounds read modelled as the panic error. -/
def extractLoop (stored : List Int) : List Int → Except String (List Int)
  | [] => Except.ok []
  | i :: rest =>
    match stored.get? (usizeCast i) with
    | none => Except.error ("panic: index out of bounds")
    | some v =>
      match extractLoop stored rest with
      | Except.error e => Except.error e
      | Except.ok l => Except.ok (v :: l)

/-- `CoordSpace::extract`: max-only bounds check, then per-index lookup;
an empty index list yields a copy of the whole space. -/
def extract (s : CoordSpace) (coords : List Int) : Except String CoordSpace :=
  match listMax coords with
  | none => Except.ok ⟨s.coords⟩
  | some mx =>
    if mx ≥ (s.coords.length : Int) then
      Except.error ("index out of range: " ++ toString mx)
    else
      match extractLoop s.coords coords with
      | Except.error e => Except.error e
      | Except.ok l => Except.ok ⟨l⟩

/-- Calling `extract` through its `&self` receiver: the held state passes
through unchanged alongside the result. -/
def extract_call (s : CoordSpace) (coords : List Int) :
    Except String CoordSpace × CoordSpace :=
  (s.extract coords, s)

/-- `CoordSpace::remove`: keep entries whose relative index is not listed. -/
def remove (s : CoordSpace) (coords : List Int) : Except String Unit × CoordSpace :=
  match listMax coords with
  | none => (Except.ok (), s)
  | some mx =>
    if mx ≥ (s.coords.length : Int) then
      (Except.error ("index out of range: " ++ toString mx), s)
    else
      (Except.ok (),
        ⟨(s.coords.enum.filter (fun p => !(coords.contains ((p.1 : Int))))).map Prod.snd⟩)

/-- `CoordSpace::retain`: keep entries whose relative index is listed; an
empty index list empties the space. -/
def retain (s : CoordSpace) (coords : List Int) : Except String Unit × CoordSpace :=
  match listMax coords with
  | none => (Except.ok (), ⟨[]⟩)
  | some mx =>
    if mx ≥ (s.coords.length : Int) then
      (Except.error ("index out of range: " ++ toString mx), s)
    else
      (Except.ok (),
        ⟨(s.coords.enum.filter (fun p => coords.contains ((p.1 : Int)))).map Prod.snd⟩)

/-- The `"s"`/`"g"` mapping shared by `from_arrays`: label `"s"` keeps the
value, label `"g"` stores `-1`, anything else is the unsupported-ID error. -/
def mapSG : List (Int × String) → Except String (List Int)
  | [] => Except.ok []
  | (x, id) :: rest =>
    if id = "s" then
      match mapSG rest with
      | Except.error e => Except.error e
      | Except.ok l => Except.ok (x :: l)
    else if id = "g" then
      match mapSG rest with
      | Except.error e => Except.error e
      | Except.ok l => Except.ok (-1 :: l)
    else
      Except.error ("unsupported ID: " ++ id ++ ". Use \"s\" for sequence or \"g\" for gap.")

/-- `CoordSpace::from_arrays`: length check, then the `"s"`/`"g"` mapping. -/
def from_arrays (data : List Int) (ids : List String) : Except String CoordSpace :=
  if data.length ≠ ids.length then
    Except.error ("lengths of data and ids do not match")
  else
    match mapSG (data.zip ids) with
    | Except.error e => Except.error e
    | Except.ok l => Except.ok ⟨l⟩

/-- The id classification of `to_blocks`: `>= 0` is `"s"`, `-1` is `"g"`,
anything below `-1` is the unexpected-coordinate error. -/
def idOf (x : Int) : Except String String :=
  if x ≥ 0 then Except.ok ("s")
  else if x = -1 then Except.ok ("g")
  else Except.error ("unexpected coordinate value: " ++ toString x)

/-- The scan loop of `CoordSpace::to_blocks` from index 1 upward.  `c0` is
`self.coords[0]` — the source computes `c_id` from `self.coords[0]` on
every iteration (not from `self.coords[i]`), and that is preserved here.
`pPos` is `self.coords[i-1]`; on exhaustion the final block is pushed
with stop `self.coords.last().unwrap() + 1`, which is `pPos + 1`. -/
def toBlocksGo (c0 pPos : Int) (lastId : String) (lastStart negLen : Int)
    (blocks : List Block) : List Int → Except String (List Block)
  | [] => Except.ok (blocks ++ [⟨lastId, lastStart, pPos + 1⟩])
  | cPos :: rest =>
    match idOf c0 with
    | Except.error e => Except.error e
    | Except.ok cId =>
      if cPos = -1 ∧ pPos = -1 then
        toBlocksGo c0 cPos lastId lastStart (negLen + 1) blocks rest
      else if cPos < -1 ∨ pPos < -1 then
        Except.error ("unexpected coordinate value: " ++ toString cPos)
      else if cPos = -1 ∧ pPos ≥ 0 then
        toBlocksGo c0 cPos cId cPos 0 (blocks ++ [⟨lastId, lastStart, pPos + 1⟩]) rest
      else if cPos ≥ 0 ∧ pPos = -1 then
        toBlocksGo c0 cPos cId cPos 0 (blocks ++ [⟨lastId, 0, negLen⟩]) rest
      else
        if cPos ≠ pPos + 1 then
          toBlocksGo c0 cPos cId cPos negLen (blocks ++ [⟨lastId, lastStart, pPos + 1⟩]) rest
        else
          toBlocksGo c0 cPos lastId lastStart negLen blocks rest

/-- `CoordSpace::to_blocks`: empty coords give an empty block list;
otherwise the grouping scan starting from `coords[0]`. -/
def to_blocks (s : CoordSpace) : Except String (List Block) :=
  match s.coords with
  | [] => Except.ok []
  | c0 :: rest =>
    match idOf c0 with
    | Except.error e => Except.error e
    | Except.ok id0 => toBlocksGo c0 c0 id0 c0 0 [] rest

end CoordSpace

/-- `blocks_to_arrays`: concatenate each block's position range paired with
its label repeated once per position. -/
def blocks_to_arrays (blocks : List Block) : List Int × List String :=
  ((blocks.map (fun b => intRange b.start b.stop)).flatten,
   (blocks.map (fun b => List.replicate (intRange b.start b.stop).length b.id)).flatten)

/-- The scan loop of `arrays_to_blocks` from index 1 upward: a block
boundary is cut when the label changes or the position is not exactly one
more than its predecessor; the final run is flushed on exhaustion (the
source's `data.last().unwrap()` is `pPos` there). -/
def a2bGo (lastId : String) (lastStart pPos : Int) : List (Int × String) → List Block
  | [] => [⟨lastId, lastStart, pPos + 1⟩]
  | (cPos, cId) :: rest =>
    if cId = lastId ∧ cPos = pPos + 1 then a2bGo lastId lastStart cPos rest
    else ⟨lastId, lastStart, pPos + 1⟩ :: a2bGo cId cPos cPos rest

/-- `arrays_to_blocks`: length check, empty input gives an empty list,
otherwise the run-cutting scan seeded with `ids[0]`/`data[0]`. -/
def arrays_to_blocks (data : List Int) (ids : List String) : Except String (List Block) :=
  if data.length ≠ ids.length then
    Except.error ("lengths of data and ids do not match")
  else
    match data, ids with
    | [], _ => Except.ok []
    | d :: dr, i :: ir => Except.ok (a2bGo i d d (dr.zip ir))
    | _ :: _, [] => Except.error ("lengths of data and ids do not match")

/-! ### Helper lemmas -/

theorem le_foldl_max (xs : List Int) (x : Int) : x ≤ xs.foldl max x := by
  induction xs generalizing x with
  | nil => simp
  | cons y ys ih =>
    simp only [List.foldl_cons]
    exact le_trans (le_max_left x y) (ih (max x y))

theorem foldl_max_mem (xs : List Int) (x : Int) : xs.foldl max x ∈ x :: xs := by
  induction xs generalizing x with
  | nil => simp
  | cons y ys ih =>
    have h := ih (max x y)
    simp only [List.foldl_cons]
    rcases List.mem_cons.mp h with h1 | h1
    · rcases max_choice x y with h2 | h2 <;> rw [h1, h2] <;> simp
    · simp [h1]

theorem mem_le_foldl_max : ∀ (xs : List Int) (x y : Int), y ∈ xs → y ≤ xs.foldl max x
  | z :: zs, x, y, h => by
    simp only [List.foldl_cons]
    rcases List.mem_cons.mp h with h1 | h1
    · rw [h1]
      exact le_trans (le_max_right x z) (le_foldl_max zs (max x z))
    · exact mem_le_foldl_max zs (max x z) y h1

theorem listMax_mem {l : List Int} {m : Int} (h : listMax l = some m) : m ∈ l := by
  cases l with
  | nil => simp [listMax] at h
  | cons x xs =>
    simp [listMax] at h
    rw [← h]
    exact foldl_max_mem xs x

theorem listMax_ge {l : List Int} {m y : Int} (h : listMax l = some m) (hy : y ∈ l) :
    y ≤ m := by
  cases l with
  | nil => simp [listMax] at h
  | cons x xs =>
    simp [listMax] at h
    rcases List.mem_cons.mp hy with h1 | h1
    · rw [h1, ← h]
      exact le_foldl_max xs x
    · rw [← h]
      exact mem_le_foldl_max xs x y h1

theorem intRange_length (a b : Int) : (intRange a b).length = (b - a).toNat := by
  simp only [intRange, List.length_map, List.length_range]

theorem intRange_single (a : Int) : intRange a (a + 1) = [a] := by
  simp only [intRange]
  rw [show (a + 1 - a).toNat = 1 from by omega]
  simp [List.range_succ]

theorem intRange_succ_right {a b : Int} (h : a ≤ b) :
    intRange a (b + 1) = intRange a b ++ [b] := by
  have hn : (b + 1 - a).toNat = (b - a).toNat + 1 := by omega
  have hb : a + (((b - a).toNat : Nat) : Int) = b := by omega
  simp only [intRange, hn, List.range_succ, List.map_append, List.map_cons, List.map_nil, hb]

theorem relBlocksGo_length (off : Int) (coords : List (Int × Int × String)) :
    (LinearSpace.relBlocksGo off coords).length = coords.length := by
  induction coords generalizing off with
  | nil => rfl
  | cons c rest ih => simp [LinearSpace.relBlocksGo, ih]

theorem scanStep_ok (relBlocks : List (Int × Int)) (relPos : Int)
    (coords : List (Int × Int × String)) :
    ∀ k, k ≤ relBlocks.length → k ≤ coords.length →
      ∃ r, LinearSpace.scanStep relBlocks relPos coords k = Except.ok r
  | 0, _, _ => ⟨(coords, 0), rfl⟩
  | k + 1, h1, h2 => by
    obtain ⟨rb, hrb⟩ : ∃ rb, relBlocks.get? k = some rb :=
      ⟨relBlocks.get ⟨k, by omega⟩, List.get?_eq_get (by omega)⟩
    obtain ⟨c, hc⟩ : ∃ c, coords.get? k = some c :=
      ⟨coords.get ⟨k, by omega⟩, List.get?_eq_get (by omega)⟩
    simp only [LinearSpace.scanStep, hrb, hc]
    by_cases hA : relPos > rb.1 ∧ relPos < rb.2 - 1
    · rw [if_pos hA]; exact ⟨_, rfl⟩
    · rw [if_neg hA]
      by_cases hB : relPos = rb.1
      · rw [if_pos hB]
        by_cases hC : c.1 + 1 = c.2.1
        · rw [if_pos hC]; exact ⟨_, rfl⟩
        · rw [if_neg hC]; exact ⟨_, rfl⟩
      · rw [if_neg hB]
        by_cases hD : relPos = rb.2 - 1
        · rw [if_pos hD]; exact ⟨_, rfl⟩
        · rw [if_neg hD]
          exact scanStep_ok relBlocks relPos coords k (by omega) (by omega)

theorem ls_remove_ok_or_id (S : LinearSpace) (P : List Int) :
    (S.remove P).1 = Except.ok () ∨ (S.remove P).2 = S := by
  unfold LinearSpace.remove
  split
  · exact Or.inl rfl
  · split
    · exact Or.inr rfl
    · split
      · exact Or.inr rfl
      · exact Or.inl rfl

theorem ls_retain_ok_or_id (S : LinearSpace) (P : List Int) :
    (S.retain P).1 = Except.ok () ∨ (S.retain P).2 = S := by
  unfold LinearSpace.retain
  split
  · exact Or.inl rfl
  · split
    · exact Or.inr rfl
    · exact ls_remove_ok_or_id S _

theorem cs_remove_ok_or_id (S : CoordSpace) (P : List Int) :
    (S.remove P).1 = Except.ok () ∨ (S.remove P).2 = S := by
  unfold CoordSpace.remove
  split
  · exact Or.inl rfl
  · split
    · exact Or.inr rfl
    · exact Or.inl rfl

theorem cs_retain_ok_or_id (S : CoordSpace) (P : List Int) :
    (S.retain P).1 = Except.ok () ∨ (S.retain P).2 = S := by
  unfold CoordSpace.retain
  split
  · exact Or.inl rfl
  · split
    · exact Or.inr rfl
    · exact Or.inl rfl

theorem bta_nil : blocks_to_arrays [] = ([], []) := rfl

theorem bta_cons (b : Block) (bs : List Block) :
    blocks_to_arrays (b :: bs) =
      (intRange b.start b.stop ++ (blocks_to_arrays bs).1,
       List.replicate (intRange b.start b.stop).length b.id ++ (blocks_to_arrays bs).2) := by
  simp [blocks_to_arrays]

theorem bta_len_eq (bs : List Block) :
    (blocks_to_arrays bs).1.length = (blocks_to_arrays bs).2.length := by
  induction bs with
  | nil => rfl
  | cons b bs ih => simp [bta_cons, ih]

theorem a2bGo_flatten : ∀ (rest : List (Int × String)) (lid : String) (ls p : Int),
    ls ≤ p →
    blocks_to_arrays (a2bGo lid ls p rest) =
      (intRange ls (p + 1) ++ rest.map Prod.fst,
       List.replicate (p + 1 - ls).toNat lid ++ rest.map Prod.snd)
  | [], lid, ls, p, h => by
    simp [a2bGo, bta_cons, bta_nil, intRange_length]
  | (c, cid) :: rest, lid, ls, p, h => by
    simp only [a2bGo]
    by_cases hc : cid = lid ∧ c = p + 1
    · rw [if_pos hc]
      obtain ⟨h1, h2⟩ := hc
      rw [a2bGo_flatten rest lid ls c (by omega)]
      subst h1
      subst h2
      rw [intRange_succ_right (by omega : ls ≤ p + 1)]
      rw [show (p + 1 + 1 - ls).toNat = (p + 1 - ls).toNat + 1 from by omega]
      rw [List.replicate_succ']
      simp [List.append_assoc]
    · rw [if_neg hc]
      rw [bta_cons, a2bGo_flatten rest cid c c le_rfl]
      simp only [intRange_length]
      rw [intRange_single]
      rw [show (c + 1 - c).toNat = 1 from by omega]
      simp [List.append_assoc]

theorem a2bGo_head : ∀ (rest : List (Int × String)) (lid : String) (ls p : Int),
    ∃ st tl, a2bGo lid ls p rest = Block.mk lid ls st :: tl
  | [], lid, ls, p => ⟨p + 1, [], rfl⟩
  | (c, cid) :: rest, lid, ls, p => by
    simp only [a2bGo]
    by_cases hc : cid = lid ∧ c = p + 1
    · rw [if_pos hc]
      exact a2bGo_head rest lid ls c
    · rw [if_neg hc]
      exact ⟨p + 1, _, rfl⟩

theorem a2bGo_chain : ∀ (rest : List (Int × String)) (lid : String) (ls p : Int),
    List.Chain' (fun b1 b2 => ¬(b1.id = b2.id ∧ b1.stop = b2.start)) (a2bGo lid ls p rest)
  | [], lid, ls, p => by simp [a2bGo]
  | (c, cid) :: rest, lid, ls, p => by
    simp only [a2bGo]
    by_cases hc : cid = lid ∧ c = p + 1
    · rw [if_pos hc]
      exact a2bGo_chain rest lid ls c
    · rw [if_neg hc]
      rw [List.chain'_cons']
      constructor
      · intro b hb
        obtain ⟨st, tl, heq⟩ := a2bGo_head rest cid c c
        rw [heq] at hb
        simp only [List.head?_cons, Option.mem_def, Option.some.injEq] at hb
        rw [← hb]
        intro hcontra
        exact hc ⟨hcontra.1.symm, hcontra.2.symm⟩
      · exact a2bGo_chain rest cid c c

theorem roundtrip (D : List Int) (I : List String) (hlen : D.length = I.length) :
    ∃ R, arrays_to_blocks D I = Except.ok R ∧ blocks_to_arrays R = (D, I) ∧
      List.Chain' (fun b1 b2 => ¬(b1.id = b2.id ∧ b1.stop = b2.start)) R := by
  cases D with
  | nil =>
    have hI : I = [] := List.length_eq_zero.mp (by simpa using hlen.symm)
    subst hI
    exact ⟨[], rfl, rfl, List.chain'_nil⟩
  | cons d dr =>
    cases I with
    | nil => simp at hlen
    | cons i ir =>
      refine ⟨a2bGo i d d (dr.zip ir), ?_, ?_, a2bGo_chain _ i d d⟩
      · simp [arrays_to_blocks, hlen]
      · rw [a2bGo_flatten (dr.zip ir) i d d le_rfl]
        have hd : dr.length ≤ ir.length := by simp at hlen; omega
        have hi : ir.length ≤ dr.length := by simp at hlen; omega
        rw [List.map_fst_zip dr ir hd, List.map_snd_zip dr ir hi]
        rw [intRange_single]
        rw [show (d + 1 - d).toNat = 1 from by omega]
        simp

theorem extractLoop_ok (stored : List Int) : ∀ (I : List Int),
    (∀ i ∈ I, 0 ≤ i ∧ i < (stored.length : Int)) →
    CoordSpace.extractLoop stored I =
      Except.ok (I.map (fun i => (stored.get? i.toNat).getD 0))
  | [], _ => rfl
  | i :: rest, h => by
    obtain ⟨h0, hlt⟩ := h i (List.mem_cons_self i rest)
    have hcast : usizeCast i = i.toNat := by
      unfold usizeCast
      rw [if_pos h0]
    have hn : i.toNat < stored.length := by omega
    have hget : stored.get? i.toNat = some (stored.get ⟨i.toNat, hn⟩) :=
      List.get?_eq_get hn
    simp only [CoordSpace.extractLoop, hcast, hget]
    rw [extractLoop_ok stored rest (fun j hj => h j (List.mem_cons_of_mem i hj))]
    simp only [List.map_cons, hget, Option.getD_some]

theorem count_sign (l : List Int) :
    (l.filter (fun x => decide (x > 0))).length +
      (l.filter (fun x => decide (x < 0))).length ≤ l.length
  ∧ ((l.filter (fun x => decide (x > 0))).length +
      (l.filter (fun x => decide (x < 0))).length = l.length ↔ ∀ x ∈ l, x ≠ 0) := by
  induction l with
  | nil => simp
  | cons a l ih =>
    obtain ⟨ih1, ih2⟩ := ih
    rcases lt_trichotomy a 0 with h | h | h
    · have hp : (decide (a > 0)) = false := by simp; omega
      have hn : (decide (a < 0)) = true := by simp [h]
      simp only [List.filter_cons, hp, hn, Bool.false_eq_true, if_false, if_true,
        List.length_cons, List.forall_mem_cons]
      constructor
      · omega
      · rw [show ((l.filter (fun x => decide (x > 0))).length +
            ((l.filter (fun x => decide (x < 0))).length + 1) = l.length + 1) ↔
            ((l.filter (fun x => decide (x > 0))).length +
            (l.filter (fun x => decide (x < 0))).length = l.length) from by omega]
        rw [ih2]
        have ha : a ≠ 0 := by omega
        simp [ha]
    · subst h
      have hp : (decide ((0 : Int) > 0)) = false := by simp
      have hn : (decide ((0 : Int) < 0)) = false := by simp
      simp only [List.filter_cons, hp, hn, Bool.false_eq_true, if_false,
        List.length_cons, List.forall_mem_cons]
      constructor
      · omega
      · constructor
        · intro he
          exfalso
          omega
        · intro hcontra
          exact absurd rfl hcontra.1
    · have hp : (decide (a > 0)) = true := by simp [h]
      have hn : (decide (a < 0)) = false := by simp; omega
      simp only [List.filter_cons, hp, hn, Bool.false_eq_true, if_false, if_true,
        List.length_cons, List.forall_mem_cons]
      constructor
      · omega
      · rw [show ((l.filter (fun x => decide (x > 0))).length + 1 +
            (l.filter (fun x => decide (x < 0))).length = l.length + 1) ↔
            ((l.filter (fun x => decide (x > 0))).length +
            (l.filter (fun x => decide (x < 0))).length = l.length) from by omega]
        rw [ih2]
        have ha : a ≠ 0 := by omega
        simp [ha]

/-! ### Claim theorems -/

/-- C1: the claim states `CoordSpace.from_arrays([5,6,-1,-1,9],
["s","s","g","g","s"]).to_blocks()` returns `[Block("s",5,7),
Block("g",0,2), Block("s",9,10)]`, with gap runs rendered as
`Block("g", 0, runLength)`.  The code instead returns
`[Block("s",5,7), Block("s",0,1), Block("s",9,10)]`: the scan derives
`c_id` from `coords[0]` rather than `coords[i]`, and `negative_length`
counts a run of `k` gaps as `k - 1`. -/
theorem claim_C1 :
    CoordSpace.from_arrays [5, 6, -1, -1, 9] ["s", "s", "g", "g", "s"] =
      Except.ok ⟨[5, 6, -1, -1, 9]⟩
  ∧ CoordSpace.to_blocks ⟨[5, 6, -1, -1, 9]⟩ =
      Except.ok [⟨"s", 5, 7⟩, ⟨"s", 0, 1⟩, ⟨"s", 9, 10⟩]
  ∧ (Except.ok [⟨"s", 5, 7⟩, ⟨"s", 0, 1⟩, ⟨"s", 9, 10⟩] : Except String (List Block)) ≠
      Except.ok [⟨"s", 5, 7⟩, ⟨"g", 0, 2⟩, ⟨"s", 9, 10⟩] := by
  refine ⟨by decide, by decide, by decide⟩

/-- C2: the claim states that after `remove(P)` with in-range, duplicate-free
`P`, `len()` shrinks by `P.length`.  The code violates this: on the single
block `(0,3,"A")`, `remove([1,0])` splits at position 1 (incrementing
`offset`), and the rescan range `rel_blocks.len() - offset = 0` then skips
position 0 entirely, so the length goes from 3 to 2 instead of 1. -/
theorem claim_C2 :
    (LinearSpace.remove ⟨[(0, 3, "A")]⟩ [1, 0]).1 = Except.ok ()
  ∧ LinearSpace.len (LinearSpace.remove ⟨[(0, 3, "A")]⟩ [1, 0]).2 = 2
  ∧ LinearSpace.len (⟨[(0, 3, "A")]⟩ : LinearSpace) = 3 := by
  refine ⟨by decide, by decide, by decide⟩

/-- C3 (amended): for every NON-EMPTY position list `P` with all values
below `len()`, `retain(P)` returns exactly the same result and state as
`remove(complement of P over 0..len())` — the source delegates literally.
(The original claim also covered `P = []`, where `retain` is a no-op; see
the counterexample.) -/
theorem claim_C3 (S : LinearSpace) (P : List Int) (hne : P ≠ [])
    (hlt : ∀ p ∈ P, p < S.len) :
    S.retain P = S.remove (S.invRel P) := by
  obtain ⟨p, ps, rfl⟩ := List.exists_cons_of_ne_nil hne
  have hmem : ps.foldl max p ∈ p :: ps := foldl_max_mem ps p
  have hlt2 : ps.foldl max p < S.len := hlt _ hmem
  simp only [LinearSpace.retain, listMax]
  rw [if_neg (not_le.mpr hlt2)]

/-- C3 counterexample: with the single block `(0,2,"A")` and `P = []`
(all of whose values are vacuously below `len() = 2`), `retain([])` is a
no-op while `remove(complement([])) = remove([0,1])` empties the space, so
the two resulting spaces differ. -/
theorem claim_C3_counterexample :
    (LinearSpace.retain ⟨[(0, 2, "A")]⟩ []).2 ≠
      (LinearSpace.remove ⟨[(0, 2, "A")]⟩
        (LinearSpace.invRel ⟨[(0, 2, "A")]⟩ [])).2 := by
  decide

/-- C3 witness: the amended equivalence at the concrete space `(0,3,"A")`
with `P = [0]`. -/
theorem claim_C3_witness :
    (([(0 : Int)] ≠ ([] : List Int))
      ∧ ∀ p ∈ [(0 : Int)], p < LinearSpace.len ⟨[(0, 3, "A")]⟩)
  ∧ LinearSpace.retain ⟨[(0, 3, "A")]⟩ [0] =
      LinearSpace.remove ⟨[(0, 3, "A")]⟩ (LinearSpace.invRel ⟨[(0, 3, "A")]⟩ [0]) :=
  ⟨⟨by decide, by decide⟩, claim_C3 ⟨[(0, 3, "A")]⟩ [0] (by decide) (by decide)⟩

/-- C4: for every non-empty block list with individually valid blocks,
decoding the encoded arrays succeeds, the result flattens back to the same
arrays, and no two adjacent result blocks carry the same label with
touching ranges (same-label touching blocks of the input have merged). -/
theorem claim_C4 (B : List Block) (hne : B ≠ []) (hval : ∀ b ∈ B, b.start ≤ b.stop) :
    ∃ R, arrays_to_blocks (blocks_to_arrays B).1 (blocks_to_arrays B).2 = Except.ok R
      ∧ blocks_to_arrays R = blocks_to_arrays B
      ∧ List.Chain' (fun b1 b2 => ¬(b1.id = b2.id ∧ b1.stop = b2.start)) R := by
  obtain ⟨R, h1, h2, h3⟩ :=
    roundtrip (blocks_to_arrays B).1 (blocks_to_arrays B).2 (bta_len_eq B)
  refine ⟨R, h1, ?_, h3⟩
  rw [h2]

/-- C4 witness: the round trip at `[Block("a",0,2), Block("a",2,4)]` —
two touching same-label blocks (which merge in the result). -/
theorem claim_C4_witness :
    (([Block.mk "a" 0 2, Block.mk "a" 2 4] ≠ ([] : List Block))
      ∧ ∀ b ∈ [Block.mk "a" 0 2, Block.mk "a" 2 4], b.start ≤ b.stop)
  ∧ ∃ R, arrays_to_blocks (blocks_to_arrays [Block.mk "a" 0 2, Block.mk "a" 2 4]).1
        (blocks_to_arrays [Block.mk "a" 0 2, Block.mk "a" 2 4]).2 = Except.ok R
      ∧ blocks_to_arrays R = blocks_to_arrays [Block.mk "a" 0 2, Block.mk "a" 2 4]
      ∧ List.Chain' (fun b1 b2 => ¬(b1.id = b2.id ∧ b1.stop = b2.start)) R :=
  ⟨⟨by decide, by decide⟩,
    claim_C4 [Block.mk "a" 0 2, Block.mk "a" 2 4] (by decide) (by decide)⟩

/-- C5: whenever `LinearSpace.remove`/`retain`, `CoordSpace.remove`/`retain`
or `CoordSpace.extract` (called through its `&self` receiver) returns the
IndexOutOfRange failure, the receiving instance's stored state is exactly
what it was before the call: bounds are validated before any mutation. -/
theorem claim_C5 :
    (∀ (S : LinearSpace) (P : List Int), isOOR (S.remove P).1 = true → (S.remove P).2 = S)
  ∧ (∀ (S : LinearSpace) (P : List Int), isOOR (S.retain P).1 = true → (S.retain P).2 = S)
  ∧ (∀ (S : CoordSpace) (P : List Int), isOOR (S.remove P).1 = true → (S.remove P).2 = S)
  ∧ (∀ (S : CoordSpace) (P : List Int), isOOR (S.retain P).1 = true → (S.retain P).2 = S)
  ∧ (∀ (S : CoordSpace) (P : List Int),
      isOOR (S.extract_call P).1 = true → (S.extract_call P).2 = S) := by
  refine ⟨?_, ?_, ?_, ?_, ?_⟩
  · intro S P h
    rcases ls_remove_ok_or_id S P with hok | hid
    · rw [hok] at h
      simp [isOOR] at h
    · exact hid
  · intro S P h
    rcases ls_retain_ok_or_id S P with hok | hid
    · rw [hok] at h
      simp [isOOR] at h
    · exact hid
  · intro S P h
    rcases cs_remove_ok_or_id S P with hok | hid
    · rw [hok] at h
      simp [isOOR] at h
    · exact hid
  · intro S P h
    rcases cs_retain_ok_or_id S P with hok | hid
    · rw [hok] at h
      simp [isOOR] at h
    · exact hid
  · intro S P _
    rfl

/-- C5 witness: each of the five operations at a concrete failing call
(`[5]` against length-1 spaces), with the state verified unchanged. -/
theorem claim_C5_witness :
    (LinearSpace.remove ⟨[(0, 1, "A")]⟩ [5]).2 = ⟨[(0, 1, "A")]⟩
  ∧ (LinearSpace.retain ⟨[(0, 1, "A")]⟩ [5]).2 = ⟨[(0, 1, "A")]⟩
  ∧ (CoordSpace.remove ⟨[0]⟩ [5]).2 = ⟨[0]⟩
  ∧ (CoordSpace.retain ⟨[0]⟩ [5]).2 = ⟨[0]⟩
  ∧ (CoordSpace.extract_call ⟨[0]⟩ [5]).2 = ⟨[0]⟩ :=
  ⟨claim_C5.1 ⟨[(0, 1, "A")]⟩ [5] (by decide),
   claim_C5.2.1 ⟨[(0, 1, "A")]⟩ [5] (by decide),
   claim_C5.2.2.1 ⟨[0]⟩ [5] (by decide),
   claim_C5.2.2.2.1 ⟨[0]⟩ [5] (by decide),
   claim_C5.2.2.2.2 ⟨[0]⟩ [5] (by decide)⟩

/-- C6 (amended): `extract` fails with the index-out-of-range error whenever
some supplied index reaches `len_all()`; `extract([])` returns a copy of the
WHOLE space (not an empty one — see the counterexample); and for non-empty
index lists whose values all lie in `[0, len_all())` it returns exactly
`self.coords[i]` for each `i` in order (duplicates and reordering allowed). -/
theorem claim_C6 (S : CoordSpace) (I : List Int) :
    ((∃ i ∈ I, (S.coords.length : Int) ≤ i) →
        ∃ mx, listMax I = some mx ∧
          S.extract I = Except.error ("index out of range: " ++ toString mx))
  ∧ S.extract [] = Except.ok ⟨S.coords⟩
  ∧ ((I ≠ [] ∧ ∀ i ∈ I, 0 ≤ i ∧ i < (S.coords.length : Int)) →
        S.extract I = Except.ok ⟨I.map (fun i => (S.coords.get? i.toNat).getD 0)⟩) := by
  refine ⟨?_, rfl, ?_⟩
  · rintro ⟨i, hiI, hge⟩
    obtain ⟨x, xs, rfl⟩ := List.exists_cons_of_ne_nil (List.ne_nil_of_mem hiI)
    refine ⟨xs.foldl max x, rfl, ?_⟩
    have hmx : xs.foldl max x ≥ (S.coords.length : Int) :=
      le_trans hge (@listMax_ge (x :: xs) (xs.foldl max x) i rfl hiI)
    simp only [CoordSpace.extract, listMax]
    rw [if_pos hmx]
  · rintro ⟨hne, hall⟩
    obtain ⟨x, xs, rfl⟩ := List.exists_cons_of_ne_nil hne
    have hmem : xs.foldl max x ∈ x :: xs := foldl_max_mem xs x
    have hlt : xs.foldl max x < (S.coords.length : Int) := (hall _ hmem).2
    simp only [CoordSpace.extract, listMax]
    rw [if_neg (not_le.mpr hlt)]
    rw [extractLoop_ok S.coords (x :: xs) hall]

/-- C6 counterexample: `extract([])` on the one-entry space `[7]` returns a
copy of the whole space, not the empty CoordSpace the claim requires. -/
theorem claim_C6_counterexample :
    CoordSpace.extract ⟨[7]⟩ [] = Except.ok ⟨[7]⟩
  ∧ (⟨[7]⟩ : CoordSpace) ≠ ⟨[]⟩ := by
  refine ⟨by decide, by decide⟩

/-- C6 witness: the three amended conclusions at the concrete space `[7,8]`
with index lists `[5]` (failure), `[]` (full copy) and `[1,0,1]`
(duplicates and reordering). -/
theorem claim_C6_witness :
    (∃ mx, listMax [5] = some mx ∧
        CoordSpace.extract ⟨[7, 8]⟩ [5] =
          Except.error ("index out of range: " ++ toString mx))
  ∧ CoordSpace.extract ⟨[7, 8]⟩ [] = Except.ok ⟨[7, 8]⟩
  ∧ CoordSpace.extract ⟨[7, 8]⟩ [1, 0, 1] =
      Except.ok ⟨[(1 : Int), 0, 1].map
        (fun i => (([(7 : Int), 8]).get? i.toNat).getD 0)⟩ :=
  ⟨(claim_C6 ⟨[7, 8]⟩ [5]).1 (by decide),
   (claim_C6 ⟨[7, 8]⟩ [5]).2.1,
   (claim_C6 ⟨[7, 8]⟩ [1, 0, 1]).2.2 (by decide)⟩

/-- C7: `LinearSpace(10, 16, "A")` renders compressed as `"A=6"`; after
`remove([2])` it consists of exactly two blocks and renders extended as
`"A=10:12;A=13:16"`. -/
theorem claim_C7 :
    LinearSpace.to_compressed_str ⟨[(10, 16, "A")]⟩ = "A=6"
  ∧ (LinearSpace.remove ⟨[(10, 16, "A")]⟩ [2]).1 = Except.ok ()
  ∧ (LinearSpace.to_blocks (LinearSpace.remove ⟨[(10, 16, "A")]⟩ [2]).2).length = 2
  ∧ LinearSpace.to_extended_str (LinearSpace.remove ⟨[(10, 16, "A")]⟩ [2]).2 =
      "A=10:12;A=13:16" := by
  refine ⟨by decide, by decide, by decide, by decide⟩

/-- C8: for every CoordSpace, `len_seq() + len_gap() ≤ len_all()`, with
equality exactly when no stored entry equals 0 (a stored 0 is counted by
neither `len_seq`, which counts entries `> 0`, nor `len_gap`, `< 0`). -/
theorem claim_C8 (S : CoordSpace) :
    S.len_seq + S.len_gap ≤ S.len_all
  ∧ (S.len_seq + S.len_gap = S.len_all ↔ ∀ x ∈ S.coords, x ≠ 0) := by
  obtain ⟨h1, h2⟩ := count_sign S.coords
  constructor
  · simp only [CoordSpace.len_seq, CoordSpace.len_gap, CoordSpace.len_all]
    exact_mod_cast h1
  · simp only [CoordSpace.len_seq, CoordSpace.len_gap, CoordSpace.len_all]
    rw [← h2]
    constructor
    · intro he
      exact_mod_cast he
    · intro he
      exact_mod_cast he

/-- C8 witness: the inequality at the concrete space `[3,-2,0]`. -/
theorem claim_C8_witness :
    CoordSpace.len_seq ⟨[3, -2, 0]⟩ + CoordSpace.len_gap ⟨[3, -2, 0]⟩ ≤
      CoordSpace.len_all ⟨[3, -2, 0]⟩ :=
  (claim_C8 ⟨[3, -2, 0]⟩).1

/-- C9 (amended): inside `remove`, every `coords[i]` access is in bounds
for SINGLETON position lists with value below `len()` (the call returns
`Ok`); the guarantee extends neither to all pairwise-distinct in-range
lists — `remove([0,4])` on blocks `[(5,9,"B"),(0,1,"A")]` deletes the
length-1 block for position 4 and then reads index 1 of the shrunken
length-1 vector for position 0 — nor to duplicated positions, where
`remove([0,0])` on a length-1 space reads index 0 of an empty vector. -/
theorem claim_C9 :
    (∀ (S : LinearSpace) (p : Int), p < S.len → (S.remove [p]).1 = Except.ok ())
  ∧ (LinearSpace.remove ⟨[(5, 9, "B"), (0, 1, "A")]⟩ [0, 4]).1 =
      Except.error ("panic: index out of bounds")
  ∧ (LinearSpace.remove ⟨[(0, 1, "A")]⟩ [0, 0]).1 =
      Except.error ("panic: index out of bounds") := by
  refine ⟨?_, by decide, by decide⟩
  intro S p h
  simp only [LinearSpace.remove, listMax, List.foldl_nil]
  rw [if_neg (not_le.mpr h)]
  obtain ⟨⟨c2, d⟩, hr⟩ :=
    scanStep_ok (LinearSpace.relBlocksOf S.coords) p S.coords
      (LinearSpace.relBlocksOf S.coords).length le_rfl
      (le_of_eq (relBlocksGo_length 0 S.coords))
  simp only [sortDesc, insertDesc, LinearSpace.removeLoop, Nat.sub_zero, hr]

/-- C9 counterexample: a pairwise-distinct position list with all values
below `len()` on which `remove` nevertheless performs an out-of-bounds
vector access, refuting the claimed in-bounds guarantee for distinct
positions. -/
theorem claim_C9_counterexample :
    ((0 : Int) ≠ 4
      ∧ (∀ p ∈ [(0 : Int), 4], p < LinearSpace.len ⟨[(5, 9, "B"), (0, 1, "A")]⟩))
  ∧ (LinearSpace.remove ⟨[(5, 9, "B"), (0, 1, "A")]⟩ [0, 4]).1 =
      Except.error ("panic: index out of bounds") := by
  refine ⟨⟨by decide, by decide⟩, by decide⟩

/-- C9 witness: the singleton guarantee at the concrete block `(0,5,"A")`
with position 2. -/
theorem claim_C9_witness :
    ((2 : Int) < LinearSpace.len ⟨[(0, 5, "A")]⟩)
  ∧ (LinearSpace.remove ⟨[(0, 5, "A")]⟩ [2]).1 = Except.ok () :=
  ⟨by decide, claim_C9.1 ⟨[(0, 5, "A")]⟩ 2 (by decide)⟩

/-- C10: `extract`'s validation only compares the maximum index against the
length, so a negative index passes it: on `[5,6,7]` with indices `[-1,0]`
the maximum is `0 < 3`, yet the lookup of `-1` reinterpreted as an unsigned
index (`2^64 - 1`) is out of bounds. -/
theorem claim_C10 :
    listMax [(-1 : Int), 0] = some 0
  ∧ (0 : Int) < ((CoordSpace.mk [5, 6, 7]).coords.length : Int)
  ∧ usizeCast (-1) = 2 ^ 64 - 1
  ∧ CoordSpace.extract ⟨[5, 6, 7]⟩ [-1, 0] =
      Except.error ("panic: index out of bounds") := by
  refine ⟨by decide, by decide, by decide, by decide⟩
